import Mathlib

/-!
Verification model of the MISMO XML-to-JSON parser (src/main.py).

The two core operations are embedded:
* `element_to_dict` models `MISMOXMLToJSONParser._element_to_dict`,
* `clean_tag_name` models `MISMOXMLToJSONParser._clean_tag_name`,
* `extract_loan_data` models `MISMOXMLToJSONParser._extract_loan_data`.

Python dictionaries are modelled as insertion-ordered association lists,
Python exceptions as `Except`, and truthiness/`in`/indexing with the exact
semantics the interpreter gives them on the value shapes that can occur.
-/

/-- A JSON-compatible value: string, insertion-ordered mapping, or sequence.
These are the only shapes `_element_to_dict` produces. -/
inductive JSON : Type where
  | str : String → JSON
  | obj : List (String × JSON) → JSON
  | arr : List JSON → JSON

/-- One node of a parsed XML tree, matching what `xml.etree.ElementTree`
exposes to the core: tag, ordered attribute list, optional direct text,
ordered children.  `text = none` models Python `element.text is None`. -/
inductive Element : Type where
  | mk (tag : String) (attrib : List (String × String)) (text : Option String)
      (children : List Element)

def Element.tag : Element → String
  | .mk t _ _ _ => t

def Element.attrib : Element → List (String × String)
  | .mk _ a _ _ => a

def Element.text : Element → Option String
  | .mk _ _ x _ => x

def Element.children : Element → List Element
  | .mk _ _ _ cs => cs

/-! ### Python string primitives -/

/-- The ASCII whitespace characters stripped by Python's `str.strip()`
(space, tab, newline, carriage return, vertical tab, form feed). -/
def pyWhitespace (c : Char) : Bool :=
  c == ' ' || c == '\t' || c == '\n' || c == '\r' ||
    c == Char.ofNat 11 || c == Char.ofNat 12

/-- Python `s.strip()`. -/
def pyStrip (s : String) : String :=
  ⟨((s.data.dropWhile pyWhitespace).reverse.dropWhile pyWhitespace).reverse⟩

/-- Holds of `s` and `k` when the character list `k` is an initial segment
of `s`. -/
def startsWithL : List Char → List Char → Bool
  | _, [] => true
  | [], _ :: _ => false
  | c :: cs, d :: ds => c == d && startsWithL cs ds

/-- Holds of `s` and `k` when `k` occurs contiguously inside `s`
(Python `k in s` for strings). -/
def containsSubL : List Char → List Char → Bool
  | [], k => k.isEmpty
  | c :: cs, k => startsWithL (c :: cs) k || containsSubL cs k

/-- Python `s.split(sep)` for a one-character separator `c`. -/
def splitOnChar (c : Char) : List Char → List (List Char)
  | [] => [[]]
  | d :: rest =>
    let r := splitOnChar c rest
    if d == c then [] :: r
    else
      match r with
      | [] => [[d]]
      | h :: t => (d :: h) :: t

/-! ### Python dict primitives (insertion-ordered association lists) -/

/-- Dictionary lookup: value stored under the first occurrence of key `k`. -/
def getKey : List (String × JSON) → String → Option JSON
  | [], _ => none
  | (k', v) :: rest, k => if k' = k then some v else getKey rest k

/-- Python `d[k] = v`: replace in place if the key exists (keeping its
position), else append at the end. -/
def setKey : List (String × JSON) → String → JSON → List (String × JSON)
  | [], k, v => [(k, v)]
  | (k', v') :: rest, k, v =>
    if k' = k then (k', v) :: rest else (k', v') :: setKey rest k v

/-- Python `a.update(b)`: assign every entry of `b` into `a`, in order. -/
def dictUpdate (a b : List (String × JSON)) : List (String × JSON) :=
  b.foldl (fun acc kv => setKey acc kv.1 kv.2) a

/-- The repetition rule of `_element_to_dict` (src/main.py lines 79-85):
insert child value `v` under tag `t`; on a repeated tag, wrap the existing
non-list value into a singleton list, then append. -/
def addChild (m : List (String × JSON)) (t : String) (v : JSON) :
    List (String × JSON) :=
  match getKey m t with
  | some (JSON.arr l) => setKey m t (JSON.arr (l ++ [v]))
  | some old => setKey m t (JSON.arr [old, v])
  | none => m ++ [(t, v)]

/-! ### Tag-name cleaning -/

/-- The namespace marker character, Python literal `'\x7d'` (closing brace)
used by ElementTree to delimit a namespace URI from the local name. -/
def nsMarker : Char := Char.ofNat 125

/-- Model of `_clean_tag_name` (src/main.py lines 96-109):
`tag.split(nsMarker)[1]` when the marker occurs in `tag`, else `tag`.
When the marker occurs, the split has at least two segments, so the
fallback branch of the match is unreachable. -/
def clean_tag_name (tag : String) : String :=
  if tag.data.contains nsMarker then
    match splitOnChar nsMarker tag.data with
    | _ :: x :: _ => ⟨x⟩
    | _ => tag
  else tag

/-! ### The tree transformer -/

/-- Trimmed direct text of an element; `""` when `text` is `None`.
Python's `if element.text and element.text.strip():` is equivalent to
testing that this value is nonempty. -/
def trimText (e : Element) : String :=
  pyStrip (e.text.getD "")

mutual

/-- Model of `_element_to_dict` (src/main.py lines 54-94). -/
def element_to_dict : Element → JSON
  | .mk _tag _attrib text children =>
    let t := pyStrip (text.getD "")
    if t ≠ "" ∧ children.isEmpty then .str t
    else
      let base : List (String × JSON) :=
        if t ≠ "" then [("#text", JSON.str t)] else []
      let ch := childrenFold [] children
      let r := dictUpdate base ch
      if r.isEmpty then .str "" else .obj r

/-- The child-processing loop of `_element_to_dict` (lines 74-85). -/
def childrenFold (acc : List (String × JSON)) : List Element → List (String × JSON)
  | [] => acc
  | c :: rest => childrenFold (addChild acc (clean_tag_name c.tag) (element_to_dict c)) rest

end

/-- Fuel-indexed reformulation of `element_to_dict`, used only to evaluate
the transformer on concrete trees by kernel reduction; `transformGo_spec`
proves it agrees with `element_to_dict` whenever the fuel suffices. -/
def transformGo : Nat → Element → JSON
  | 0, _ => .str ""
  | n + 1, .mk _tag _attrib text children =>
    let t := pyStrip (text.getD "")
    if t ≠ "" ∧ children.isEmpty then .str t
    else
      let base : List (String × JSON) :=
        if t ≠ "" then [("#text", JSON.str t)] else []
      let ch := children.foldl
        (fun acc c => addChild acc (clean_tag_name c.tag) (transformGo n c)) []
      let r := dictUpdate base ch
      if r.isEmpty then .str "" else .obj r

/-! ### The loan data extractor -/

/-- The fixed six-field record built by `_extract_loan_data`. -/
structure LoanData where
  message_info : JSON
  deal_info : JSON
  collaterals : List JSON
  loans : List JSON
  parties : List JSON
  relationships : List JSON

/-- The literal `loan_data` initializer (src/main.py lines 121-128). -/
def defaultLoanData : LoanData :=
  ⟨.obj [], .obj [], [], [], [], []⟩

/-- Python `k in v` for a string `k`: key membership on dicts, substring
test on strings, element equality on lists. -/
def pyIn (k : String) (v : JSON) : Bool :=
  match v with
  | .obj m => (getKey m k).isSome
  | .str s => containsSubL s.data k.data
  | .arr l => l.any fun x =>
      match x with
      | .str s => s == k
      | _ => false

/-- Python `v[k]` for a string key: a dict lookup, raising `KeyError` when
the key is absent and `TypeError` when `v` is a string or a list. -/
def getItem (v : JSON) (k : String) : Except Unit JSON :=
  match v with
  | .obj m =>
    match getKey m k with
    | some x => .ok x
    | none => .error ()
  | _ => .error ()

/-- Python `if isinstance(x, list): x = x[0]` — raises `IndexError` on an
empty list. -/
def takeFirstIfList : JSON → Except Unit JSON
  | .arr [] => .error ()
  | .arr (x :: _) => .ok x
  | v => .ok v

/-- Python `if not isinstance(x, list): x = [x]`. -/
def toPyList : JSON → List JSON
  | .arr l => l
  | v => [v]

/-- Message-info block of `_extract_loan_data` (lines 131-138).  The
`error` payload is the record as accumulated when the exception is raised,
because the Python `loan_data` dict is mutated in place and returned by
the top-level handler. -/
def stepMessage (j : JSON) (d : LoanData) : Except LoanData LoanData :=
  if pyIn "ABOUT_VERSIONS" j then
    match getItem j "ABOUT_VERSIONS" with
    | .error _ => .error d
    | .ok about_versions =>
      if pyIn "ABOUT_VERSION" about_versions then
        match getItem about_versions "ABOUT_VERSION" with
        | .error _ => .error d
        | .ok av =>
          match takeFirstIfList av with
          | .error _ => .error d
          | .ok av' => .ok { d with message_info := av' }
      else .ok d
  else .ok d

/-- Collaterals block (lines 156-163). -/
def stepCollaterals (deal : JSON) (d : LoanData) : Except LoanData LoanData :=
  if pyIn "COLLATERALS" deal then
    match getItem deal "COLLATERALS" with
    | .error _ => .error d
    | .ok collaterals =>
      if pyIn "COLLATERAL" collaterals then
        match getItem collaterals "COLLATERAL" with
        | .error _ => .error d
        | .ok c => .ok { d with collaterals := toPyList c }
      else .ok d
  else .ok d

/-- Loans block (lines 165-172). -/
def stepLoans (deal : JSON) (d : LoanData) : Except LoanData LoanData :=
  if pyIn "LOANS" deal then
    match getItem deal "LOANS" with
    | .error _ => .error d
    | .ok loans =>
      if pyIn "LOAN" loans then
        match getItem loans "LOAN" with
        | .error _ => .error d
        | .ok l => .ok { d with loans := toPyList l }
      else .ok d
  else .ok d

/-- Parties block (lines 174-181). -/
def stepParties (deal : JSON) (d : LoanData) : Except LoanData LoanData :=
  if pyIn "PARTIES" deal then
    match getItem deal "PARTIES" with
    | .error _ => .error d
    | .ok parties =>
      if pyIn "PARTY" parties then
        match getItem parties "PARTY" with
        | .error _ => .error d
        | .ok p => .ok { d with parties := toPyList p }
      else .ok d
  else .ok d

/-- The trailing part of the deal block (lines 154-181): store the deal
as `deal_info` (already done by the caller), then run the
collaterals/loans/parties blocks in order against the deal; a raised
exception skips the remaining blocks. -/
def stepDealTail (deal : JSON) (d1 : LoanData) : Except LoanData LoanData :=
  match stepCollaterals deal d1 with
  | .error d' => .error d'
  | .ok d2 =>
    match stepLoans deal d2 with
    | .error d' => .error d'
    | .ok d3 => stepParties deal d3

/-- Deal block of `_extract_loan_data` (lines 140-181): walks
DEAL_SETS → DEAL_SET → DEALS → DEAL, stores `deal_info`, then runs the
collaterals/loans/parties blocks against the deal. -/
def stepDeal (j : JSON) (d : LoanData) : Except LoanData LoanData :=
  if pyIn "DEAL_SETS" j then
    match getItem j "DEAL_SETS" with
    | .error _ => .error d
    | .ok deal_sets =>
      if pyIn "DEAL_SET" deal_sets then
        match getItem deal_sets "DEAL_SET" with
        | .error _ => .error d
        | .ok ds0 =>
          match takeFirstIfList ds0 with
          | .error _ => .error d
          | .ok deal_set =>
            if pyIn "DEALS" deal_set then
              match getItem deal_set "DEALS" with
              | .error _ => .error d
              | .ok deals =>
                if pyIn "DEAL" deals then
                  match getItem deals "DEAL" with
                  | .error _ => .error d
                  | .ok dl0 =>
                    match takeFirstIfList dl0 with
                    | .error _ => .error d
                    | .ok deal =>
                      stepDealTail deal { d with deal_info := deal }
                else .ok d
            else .ok d
      else .ok d
  else .ok d

/-- Relationships block (lines 183-190), looked up from the document root. -/
def stepRel (j : JSON) (d : LoanData) : Except LoanData LoanData :=
  if pyIn "RELATIONSHIPS" j then
    match getItem j "RELATIONSHIPS" with
    | .error _ => .error d
    | .ok relationships =>
      if pyIn "RELATIONSHIP" relationships then
        match getItem relationships "RELATIONSHIP" with
        | .error _ => .error d
        | .ok r => .ok { d with relationships := toPyList r }
      else .ok d
  else .ok d

/-- The part of the `try:` body after the message block: deal block then
relationships block. -/
def extractBodyTail (j : JSON) (d1 : LoanData) : Except LoanData LoanData :=
  match stepDeal j d1 with
  | .error d' => .error d'
  | .ok d2 => stepRel j d2

/-- The body of the `try:` block of `_extract_loan_data` (lines 130-190):
the three top-level blocks run in sequence; a raised exception aborts the
remaining blocks and carries the record accumulated so far. -/
def extractBody (j : JSON) (d : LoanData) : Except LoanData LoanData :=
  match stepMessage j d with
  | .error d' => .error d'
  | .ok d1 => extractBodyTail j d1

/-- Model of `_extract_loan_data` (src/main.py lines 111-195): run the
body against the default record; the `except` handler swallows any
exception and the accumulated record is returned either way. -/
def extract_loan_data (j : JSON) : LoanData :=
  match extractBody j defaultLoanData with
  | .ok d => d
  | .error d => d

/-! ### Derived notions used to state the claims -/

/-- Keys of an association list, in order. -/
def keysOf (m : List (String × JSON)) : List String :=
  m.map Prod.fst

/-- The document-order sequence of transformed values of the children of a
given element whose cleaned tag is `t`. -/
def tagVals (t : String) (cs : List Element) : List JSON :=
  (cs.filter fun c => clean_tag_name c.tag == t).map element_to_dict

/-- One step of the repetition rule, viewed as a state transformer on the
value currently stored under the repeated key (`none` = key absent). -/
def repStep : Option JSON → JSON → JSON
  | none, v => v
  | some (JSON.arr l), v => .arr (l ++ [v])
  | some x, v => .arr [x, v]

/-- Iterated repetition rule at one key. -/
def repRun (st : Option JSON) (vs : List JSON) : Option JSON :=
  vs.foldl (fun st v => some (repStep st v)) st

mutual

/-- Structural invariant of transformer output: `okVal arrOk v` holds when
every mapping inside `v` is non-empty and sequences occur only directly as
values of mapping keys (`arrOk` records whether a sequence is legal at the
current position; it is `false` at the top level and inside sequences). -/
def okVal : Bool → JSON → Bool
  | _, .str _ => true
  | _, .obj m => !m.isEmpty && okEntries m
  | arrOk, .arr l => arrOk && okElems l

/-- Conjunction of `okVal` over every value of an association list. -/
def okEntries : List (String × JSON) → Bool
  | [] => true
  | (_, v) :: rest => okVal true v && okEntries rest

/-- Conjunction of `okVal` over every element of a sequence (nested
sequences are illegal). -/
def okElems : List JSON → Bool
  | [] => true
  | v :: rest => okVal false v && okElems rest

end

/-- The tag-cleaning rule as the spec words it: strip everything up to and
including the (first) namespace marker and keep the whole remainder; a tag
without a marker passes through unchanged.  Stated from the spec for
comparison with `clean_tag_name`. -/
def specCleanTag (tag : String) : String :=
  if tag.data.contains nsMarker then
    ⟨(tag.data.dropWhile fun c => c != nsMarker).tail⟩
  else tag

/-! ### Concrete input documents -/

/-- The attribute-bearing element of the canonical test scenario
(`src/test_parser.py`, `sample_xml_with_attributes`):
`<person id="1" type="borrower"><name>John Doe</name><age>30</age></person>`. -/
def personElem : Element :=
  .mk "person" [("id", "1"), ("type", "borrower")] (some "\n        ")
    [.mk "name" [] (some "John Doe") [],
     .mk "age" [] (some "30") []]

/-- An element carrying only attributes: `<empty id="1"/>`. -/
def attrOnlyElem : Element :=
  .mk "empty" [("id", "1")] none []

/-- An element with three same-tagged children, the spec's repetition
example. -/
def repeatElem : Element :=
  .mk "root" [] (some "\n    ")
    [.mk "item" [] (some "First") [],
     .mk "item" [] (some "Second") [],
     .mk "item" [] (some "Third") []]

/-- A document whose ABOUT_VERSIONS value is misshaped (a list, so the
`about_versions['ABOUT_VERSION']` lookup raises `TypeError`) while its
top-level relationships path is present and well-shaped. -/
def c2input : JSON :=
  .obj [("ABOUT_VERSIONS", .arr [.str "ABOUT_VERSION"]),
        ("RELATIONSHIPS", .obj [("RELATIONSHIP", .obj [("x", .str "y")])])]

/-- A document whose only content is a well-shaped relationships path. -/
def relOnlyInput : JSON :=
  .obj [("RELATIONSHIPS", .obj [("RELATIONSHIP", .str "X")])]

/-- The MISMO-shaped end-to-end document of the spec scenario
(`src/test_parser.py`, `sample_xml_mismo_structure`): one DEAL with one
LOAN, one COLLATERAL and one PARTY. -/
def mismoDoc : Element :=
  .mk "MESSAGE" [] (some "\n    ")
    [.mk "ABOUT_VERSIONS" [] (some "\n        ")
       [.mk "ABOUT_VERSION" [] (some "\n            ")
          [.mk "DataVersionIdentifier" [] (some "3.4") []]],
     .mk "DEAL_SETS" [] (some "\n        ")
       [.mk "DEAL_SET" [] (some "\n            ")
          [.mk "DEALS" [] (some "\n                ")
             [.mk "DEAL" [] (some "\n                    ")
                [.mk "LOANS" [] (some "\n                        ")
                   [.mk "LOAN" [] (some "\n                            ")
                      [.mk "LoanAmount" [] (some "250000") [],
                       .mk "InterestRate" [] (some "3.5") []]],
                 .mk "COLLATERALS" [] (some "\n                        ")
                   [.mk "COLLATERAL" [] (some "\n                            ")
                      [.mk "PropertyAddress" [] (some "123 Main St") []]],
                 .mk "PARTIES" [] (some "\n                        ")
                   [.mk "PARTY" [] (some "\n                            ")
                      [.mk "Name" [] (some "John Doe") [],
                       .mk "Role" [] (some "Borrower") []]]]]]]]

/-- The DEAL mapping produced by transforming `mismoDoc`. -/
def mismoDeal : List (String × JSON) :=
  [("LOANS", .obj [("LOAN", .obj [("LoanAmount", .str "250000"),
                                  ("InterestRate", .str "3.5")])]),
   ("COLLATERALS", .obj [("COLLATERAL",
      .obj [("PropertyAddress", .str "123 Main St")])]),
   ("PARTIES", .obj [("PARTY", .obj [("Name", .str "John Doe"),
                                     ("Role", .str "Borrower")])])]

/-- The relationships field of either outcome of an extraction step. -/
def exRel : Except LoanData LoanData → List JSON
  | .ok d => d.relationships
  | .error d => d.relationships

/-- A leaf element with text only: `<text>Some content</text>`. -/
def textElem : Element :=
  .mk "text" [] (some "Some content") []

/-- An empty element: `<empty></empty>`. -/
def emptyElem : Element :=
  .mk "empty" [] none []

/-! ### Fuel adequacy: `transformGo` agrees with `element_to_dict` -/

theorem Element.one_le_sizeOf (t : String) (a : List (String × String))
    (x : Option String) (cs : List Element) :
    1 ≤ sizeOf (Element.mk t a x cs) := by
  simp only [Element.mk.sizeOf_spec]
  omega

theorem Element.sizeOf_child_lt {c : Element} {cs : List Element} (h : c ∈ cs)
    (t : String) (a : List (String × String)) (x : Option String) :
    sizeOf c < sizeOf (Element.mk t a x cs) := by
  have := List.sizeOf_lt_of_mem h
  simp only [Element.mk.sizeOf_spec]
  omega

theorem foldl_congr_mem {α β : Type} {l : List α} {f g : β → α → β}
    (h : ∀ a ∈ l, ∀ acc, f acc a = g acc a) (b : β) :
    l.foldl f b = l.foldl g b := by
  induction l generalizing b with
  | nil => rfl
  | cons x xs ih =>
    simp only [List.foldl_cons]
    rw [h x (List.mem_cons_self x xs)]
    exact ih (fun a ha acc => h a (List.mem_cons_of_mem x ha) acc) _

theorem childrenFold_eq_foldl (cs : List Element) (acc : List (String × JSON)) :
    childrenFold acc cs =
      cs.foldl (fun a c => addChild a (clean_tag_name c.tag) (element_to_dict c)) acc := by
  induction cs generalizing acc with
  | nil => simp [childrenFold]
  | cons c rest ih => simp [childrenFold, ih]

theorem transformGo_spec : ∀ (n : Nat) (e : Element), sizeOf e ≤ n →
    element_to_dict e = transformGo n e := by
  intro n
  induction n using Nat.strong_induction_on with
  | _ n ih =>
    intro e he
    obtain ⟨tg, a, tx, cs⟩ := e
    have h1 : 1 ≤ sizeOf (Element.mk tg a tx cs) := Element.one_le_sizeOf tg a tx cs
    obtain ⟨m, rfl⟩ : ∃ m, n = m + 1 := ⟨n - 1, by omega⟩
    have hch : childrenFold ([] : List (String × JSON)) cs =
        cs.foldl (fun acc c => addChild acc (clean_tag_name c.tag) (transformGo m c)) [] := by
      rw [childrenFold_eq_foldl]
      apply foldl_congr_mem
      intro c hc acc
      have hlt : sizeOf c < sizeOf (Element.mk tg a tx cs) :=
        Element.sizeOf_child_lt hc tg a tx
      rw [ih m (by omega) c (by omega)]
    simp only [element_to_dict, transformGo, hch]

/-- Evaluation form of the transformer: supply `sizeOf e` as fuel. -/
theorem element_to_dict_eval (e : Element) :
    element_to_dict e = transformGo (sizeOf e) e :=
  transformGo_spec (sizeOf e) e le_rfl

/-! ### Association-list lemmas -/

theorem getKey_setKey_self (m : List (String × JSON)) (k : String) (v : JSON) :
    getKey (setKey m k v) k = some v := by
  induction m with
  | nil => simp [setKey, getKey]
  | cons kv rest ih =>
    by_cases h : kv.1 = k
    · simp [setKey, getKey, h]
    · simp [setKey, getKey, h, ih]

theorem getKey_setKey_ne (m : List (String × JSON)) {k k' : String} (v : JSON)
    (h : k ≠ k') : getKey (setKey m k v) k' = getKey m k' := by
  induction m with
  | nil => simp [setKey, getKey, h]
  | cons kv rest ih =>
    by_cases h1 : kv.1 = k
    · simp [setKey, getKey, h1, h]
    · simp only [setKey, if_neg h1, getKey]
      by_cases h2 : kv.1 = k'
      · simp [h2]
      · simp [h2, ih]

theorem getKey_append_of_none {m : List (String × JSON)} {k : String}
    (h : getKey m k = none) (l : List (String × JSON)) :
    getKey (m ++ l) k = getKey l k := by
  induction m with
  | nil => simp
  | cons kv rest ih =>
    by_cases h1 : kv.1 = k
    · simp [getKey, h1] at h
    · simp only [getKey, if_neg h1] at h
      simpa [getKey, h1] using ih h

theorem getKey_mem {m : List (String × JSON)} {k : String} {v : JSON}
    (h : getKey m k = some v) : (k, v) ∈ m := by
  induction m with
  | nil => simp [getKey] at h
  | cons kv rest ih =>
    by_cases h1 : kv.1 = k
    · simp only [getKey, if_pos h1] at h
      obtain ⟨k0, v0⟩ := kv
      obtain rfl : k0 = k := h1
      obtain rfl : v0 = v := by simpa using h
      exact List.mem_cons_self _ _
    · simp only [getKey, if_neg h1] at h
      exact List.mem_cons_of_mem _ (ih h)

theorem mem_setKey {m : List (String × JSON)} {k : String} {v : JSON}
    {kv : String × JSON} (h : kv ∈ setKey m k v) : kv ∈ m ∨ kv = (k, v) := by
  induction m with
  | nil => simpa [setKey] using h
  | cons x rest ih =>
    by_cases h1 : x.1 = k
    · simp only [setKey, if_pos h1, List.mem_cons] at h
      rcases h with h | h
      · right
        rw [h, Prod.ext_iff]
        exact ⟨h1, rfl⟩
      · exact Or.inl (List.mem_cons_of_mem _ h)
    · simp only [setKey, if_neg h1, List.mem_cons] at h
      rcases h with h | h
      · exact Or.inl (by simp [h])
      · rcases ih h with h' | h'
        · exact Or.inl (List.mem_cons_of_mem _ h')
        · exact Or.inr h'

theorem length_le_setKey (m : List (String × JSON)) (k : String) (v : JSON) :
    m.length ≤ (setKey m k v).length := by
  induction m with
  | nil => simp [setKey]
  | cons x rest ih =>
    by_cases h1 : x.1 = k
    · simp [setKey, h1]
    · simpa [setKey, h1] using ih

theorem length_le_dictUpdate (a b : List (String × JSON)) :
    a.length ≤ (dictUpdate a b).length := by
  induction b generalizing a with
  | nil => simp [dictUpdate]
  | cons x rest ih =>
    calc a.length ≤ (setKey a x.1 x.2).length := length_le_setKey a x.1 x.2
      _ ≤ (dictUpdate (setKey a x.1 x.2) rest).length := ih _
      _ = (dictUpdate a (x :: rest)).length := by simp [dictUpdate]

theorem mem_dictUpdate {a b : List (String × JSON)} {kv : String × JSON}
    (h : kv ∈ dictUpdate a b) : kv ∈ a ∨ kv ∈ b := by
  induction b generalizing a with
  | nil => exact Or.inl (by simpa [dictUpdate] using h)
  | cons x rest ih =>
    have h' : kv ∈ dictUpdate (setKey a x.1 x.2) rest := by
      simpa [dictUpdate] using h
    rcases ih h' with h'' | h''
    · rcases mem_setKey h'' with h3 | h3
      · exact Or.inl h3
      · right
        rw [h3]
        exact List.mem_cons_self _ _
    · exact Or.inr (List.mem_cons_of_mem _ h'')

theorem setKey_eq_append_of_none {m : List (String × JSON)} {k : String}
    (h : getKey m k = none) (v : JSON) : setKey m k v = m ++ [(k, v)] := by
  induction m with
  | nil => simp [setKey]
  | cons x rest ih =>
    by_cases h1 : x.1 = k
    · simp [getKey, h1] at h
    · simp only [getKey, if_neg h1] at h
      simp [setKey, h1, ih h]

theorem keysOf_setKey_of_some {m : List (String × JSON)} {k : String} {v w : JSON}
    (h : getKey m k = some w) : keysOf (setKey m k v) = keysOf m := by
  induction m with
  | nil => simp [getKey] at h
  | cons x rest ih =>
    by_cases h1 : x.1 = k
    · simp [setKey, keysOf, h1]
    · simp only [getKey, if_neg h1] at h
      simp only [setKey, if_neg h1, keysOf, List.map_cons]
      have := ih h
      simp only [keysOf] at this
      rw [this]

theorem getKey_eq_none_of_not_mem {m : List (String × JSON)} {k : String}
    (h : k ∉ keysOf m) : getKey m k = none := by
  induction m with
  | nil => rfl
  | cons x rest ih =>
    have h1 : ¬ x.1 = k := by
      intro e
      exact h (by simp [keysOf, e])
    have h2 : k ∉ keysOf rest := by
      intro hk
      refine h ?_
      simp only [keysOf, List.map_cons, List.mem_cons]
      exact Or.inr (by simpa [keysOf] using hk)
    simp only [getKey, if_neg h1]
    exact ih h2

theorem not_mem_of_getKey_eq_none {m : List (String × JSON)} {k : String}
    (h : getKey m k = none) : k ∉ keysOf m := by
  induction m with
  | nil => simp [keysOf]
  | cons x rest ih =>
    by_cases h1 : x.1 = k
    · simp [getKey, h1] at h
    · simp only [getKey, if_neg h1] at h
      simp only [keysOf, List.map_cons, List.mem_cons, not_or]
      exact ⟨fun hx => h1 hx.symm, by simpa [keysOf] using ih h⟩

/-! ### Repetition-rule lemmas -/

theorem getKey_addChild_self (m : List (String × JSON)) (t : String) (v : JSON) :
    getKey (addChild m t v) t = some (repStep (getKey m t) v) := by
  unfold addChild
  split
  · next l heq => rw [heq, getKey_setKey_self]; rfl
  · next old hnarr heq =>
    rw [heq, getKey_setKey_self]
    cases old with
    | str s => rfl
    | obj m' => rfl
    | arr l => exact absurd rfl (hnarr l)
  · next heq =>
    rw [heq, getKey_append_of_none heq]
    simp [getKey, repStep]

theorem getKey_addChild_ne (m : List (String × JSON)) {t t' : String} (v : JSON)
    (h : t ≠ t') : getKey (addChild m t v) t' = getKey m t' := by
  unfold addChild
  split
  · exact getKey_setKey_ne m _ h
  · exact getKey_setKey_ne m _ h
  · next heq =>
    induction m with
    | nil => simp [getKey, h]
    | cons x rest ih =>
      by_cases h1 : x.1 = t'
      · simp [getKey, h1]
      · simp only [getKey, if_neg h1] at *
        by_cases h2 : x.1 = t
        · simp [getKey, h2] at heq
        · simp only [getKey, if_neg h2] at heq
          exact ih heq

theorem mem_addChild {m : List (String × JSON)} {t : String} {v : JSON}
    {kv : String × JSON} (h : kv ∈ addChild m t v) :
    kv ∈ m ∨ kv = (t, v) ∨
      (∃ l, getKey m t = some (JSON.arr l) ∧ kv = (t, JSON.arr (l ++ [v]))) ∨
      (∃ old, getKey m t = some old ∧ (∀ l, old ≠ JSON.arr l) ∧
        kv = (t, JSON.arr [old, v])) := by
  unfold addChild at h
  split at h
  · next l heq =>
    rcases mem_setKey h with h' | h'
    · exact Or.inl h'
    · exact Or.inr (Or.inr (Or.inl ⟨l, heq, h'⟩))
  · next old hnarr heq =>
    rcases mem_setKey h with h' | h'
    · exact Or.inl h'
    · exact Or.inr (Or.inr (Or.inr ⟨old, heq, hnarr, h'⟩))
  · rcases List.mem_append.mp h with h' | h'
    · exact Or.inl h'
    · exact Or.inr (Or.inl (by simpa using h'))

theorem getKey_dictUpdate :
    ∀ (b : List (String × JSON)), (keysOf b).Nodup →
    ∀ (a : List (String × JSON)) (t : String),
      getKey (dictUpdate a b) t =
        (match getKey b t with
         | some v => some v
         | none => getKey a t) := by
  intro b
  induction b with
  | nil => intro _ a t; rfl
  | cons x rest ih =>
    intro hb a t
    have hb' : x.1 ∉ keysOf rest ∧ (keysOf rest).Nodup := by
      rw [keysOf, List.map_cons, List.nodup_cons] at hb
      exact ⟨by simpa [keysOf] using hb.1, by simpa [keysOf] using hb.2⟩
    have hstep : dictUpdate a (x :: rest) = dictUpdate (setKey a x.1 x.2) rest := rfl
    rw [hstep, ih hb'.2]
    by_cases ht : x.1 = t
    · have hnone : getKey rest t = none :=
        getKey_eq_none_of_not_mem (ht ▸ hb'.1)
      rw [hnone]
      subst ht
      rw [getKey_setKey_self]
      simp [getKey]
    · rw [getKey_setKey_ne a _ ht]
      simp only [getKey, if_neg ht]

theorem keysOf_addChild_nodup {m : List (String × JSON)}
    (h : (keysOf m).Nodup) (t : String) (v : JSON) :
    (keysOf (addChild m t v)).Nodup := by
  unfold addChild
  split
  · next l heq => rw [keysOf_setKey_of_some heq]; exact h
  · next old hnarr heq => rw [keysOf_setKey_of_some heq]; exact h
  · next heq =>
    have ht : t ∉ keysOf m := not_mem_of_getKey_eq_none heq
    simp only [keysOf, List.map_append, List.map_cons, List.map_nil]
    rw [List.nodup_append]
    refine ⟨by simpa [keysOf] using h, List.nodup_singleton t, ?_⟩
    intro x hx hx'
    simp only [List.mem_singleton] at hx'
    exact ht (by simpa [keysOf, hx'] using hx)

theorem childrenFold_keys_nodup :
    ∀ (cs : List Element) (acc : List (String × JSON)),
      (keysOf acc).Nodup → (keysOf (childrenFold acc cs)).Nodup := by
  intro cs
  induction cs with
  | nil => intro acc h; simpa [childrenFold] using h
  | cons c rest ih =>
    intro acc h
    have hstep : childrenFold acc (c :: rest) =
        childrenFold (addChild acc (clean_tag_name c.tag) (element_to_dict c)) rest := by
      simp [childrenFold]
    rw [hstep]
    exact ih _ (keysOf_addChild_nodup h _ _)

/-! ### Grouping of repeated tags through the child fold -/

theorem getKey_childrenFold (t : String) :
    ∀ (cs : List Element) (acc : List (String × JSON)),
      getKey (childrenFold acc cs) t = repRun (getKey acc t) (tagVals t cs) := by
  intro cs
  induction cs with
  | nil => intro acc; simp [childrenFold, tagVals, repRun]
  | cons c rest ih =>
    intro acc
    have hstep : childrenFold acc (c :: rest) =
        childrenFold (addChild acc (clean_tag_name c.tag) (element_to_dict c)) rest := by
      simp [childrenFold]
    rw [hstep, ih]
    by_cases h : clean_tag_name c.tag = t
    · have hfil : tagVals t (c :: rest) = element_to_dict c :: tagVals t rest := by
        simp [tagVals, List.filter_cons, h]
      rw [hfil, h, getKey_addChild_self]
      rfl
    · have hfil : tagVals t (c :: rest) = tagVals t rest := by
        simp [tagVals, List.filter_cons, h]
      rw [hfil, getKey_addChild_ne _ _ h]

theorem repRun_some_arr :
    ∀ (vs l : List JSON), repRun (some (.arr l)) vs = some (.arr (l ++ vs)) := by
  intro vs
  induction vs with
  | nil => intro l; simp [repRun]
  | cons v rest ih =>
    intro l
    have hstep : repRun (some (JSON.arr l)) (v :: rest) =
        repRun (some (.arr (l ++ [v]))) rest := rfl
    rw [hstep, ih]
    simp

theorem repRun_of_two (v1 v2 : JSON) (vs : List JSON)
    (hnarr : ∀ l, v1 ≠ .arr l) :
    repRun none (v1 :: v2 :: vs) = some (.arr (v1 :: v2 :: vs)) := by
  have h2 : repStep (some v1) v2 = .arr [v1, v2] := by
    cases v1 with
    | str s => rfl
    | obj m => rfl
    | arr l => exact absurd rfl (hnarr l)
  have hstep : repRun none (v1 :: v2 :: vs) =
      repRun (some (repStep (some (repStep none v1)) v2)) vs := rfl
  rw [hstep]
  have h1 : repStep none v1 = v1 := rfl
  rw [h1, h2, repRun_some_arr]
  simp

/-! ### Shape of the transformer output -/

theorem element_to_dict_shape (e : Element) :
    element_to_dict e = .str (trimText e) ∨
    ∃ m, m ≠ [] ∧ element_to_dict e = .obj m := by
  obtain ⟨tg, a, tx, cs⟩ := e
  have htrim : trimText (Element.mk tg a tx cs) = pyStrip (tx.getD "") := rfl
  simp only [element_to_dict]
  split
  · next hcond => left; rw [htrim]
  · next hcond =>
    split
    · next hbase =>
      split
      · next hemp =>
        exfalso
        have h2 := length_le_dictUpdate
          [("#text", JSON.str (pyStrip (tx.getD "")))] (childrenFold [] cs)
        rw [List.isEmpty_iff] at hemp
        rw [hemp] at h2
        simp at h2
      · next hemp =>
        right
        refine ⟨_, ?_, rfl⟩
        intro hnil
        rw [List.isEmpty_iff] at hemp
        exact hemp hnil
    · next hbase =>
      have ht : pyStrip (tx.getD "") = "" := by
        by_contra hne
        exact hbase hne
      split
      · next hemp => left; rw [htrim, ht]
      · next hemp =>
        right
        refine ⟨_, ?_, rfl⟩
        intro hnil
        rw [List.isEmpty_iff] at hemp
        exact hemp hnil

/-- The transformer never returns a sequence at the top level. -/
theorem element_to_dict_not_arr (e : Element) (l : List JSON) :
    element_to_dict e ≠ .arr l := by
  rcases element_to_dict_shape e with h | ⟨m, _, h⟩ <;> rw [h] <;> intro h' <;>
    exact JSON.noConfusion h'

/-! ### The structural invariant of transformer output -/

theorem okEntries_iff (m : List (String × JSON)) :
    okEntries m = true ↔ ∀ kv ∈ m, okVal true kv.2 = true := by
  induction m with
  | nil => simp [okEntries]
  | cons kv rest ih =>
    obtain ⟨k, v⟩ := kv
    simp [okEntries, Bool.and_eq_true, ih]

theorem okElems_iff (l : List JSON) :
    okElems l = true ↔ ∀ v ∈ l, okVal false v = true := by
  induction l with
  | nil => simp [okElems]
  | cons v rest ih => simp [okElems, Bool.and_eq_true, ih]

theorem okVal_true_of_false {v : JSON} (h : okVal false v = true) :
    okVal true v = true := by
  cases v with
  | str s => rfl
  | obj m => simpa [okVal] using h
  | arr l => simp [okVal] at h

theorem okVal_false_of_not_arr {v : JSON} (h : okVal true v = true)
    (hnarr : ∀ l, v ≠ .arr l) : okVal false v = true := by
  cases v with
  | str s => rfl
  | obj m => simpa [okVal] using h
  | arr l => exact absurd rfl (hnarr l)

theorem addChild_ok {m : List (String × JSON)} {t : String} {v : JSON}
    (hm : ∀ kv ∈ m, okVal true kv.2 = true) (hv : okVal false v = true) :
    ∀ kv ∈ addChild m t v, okVal true kv.2 = true := by
  intro kv hkv
  rcases mem_addChild hkv with h | h | ⟨l, hl, h⟩ | ⟨old, hold, hnarr, h⟩
  · exact hm kv h
  · rw [h]; exact okVal_true_of_false hv
  · rw [h]
    have hlok : okVal true (JSON.arr l) = true := hm _ (getKey_mem hl)
    simp only [okVal, Bool.and_eq_true, okElems_iff] at hlok ⊢
    refine ⟨trivial, ?_⟩
    intro x hx
    rcases List.mem_append.mp hx with hx | hx
    · exact hlok.2 x hx
    · simp only [List.mem_singleton] at hx
      rw [hx]; exact hv
  · rw [h]
    have holdok : okVal true old = true := hm _ (getKey_mem hold)
    have hold' : okVal false old = true := okVal_false_of_not_arr holdok hnarr
    simp only [okVal, Bool.and_eq_true, okElems_iff]
    refine ⟨trivial, ?_⟩
    intro x hx
    simp only [List.mem_cons, List.mem_singleton, List.not_mem_nil, or_false] at hx
    rcases hx with hx | hx
    · rw [hx]; exact hold'
    · rw [hx]; exact hv

theorem childrenFold_ok :
    ∀ (cs : List Element), (∀ c ∈ cs, okVal false (element_to_dict c) = true) →
    ∀ (acc : List (String × JSON)), (∀ kv ∈ acc, okVal true kv.2 = true) →
    ∀ kv ∈ childrenFold acc cs, okVal true kv.2 = true := by
  intro cs
  induction cs with
  | nil =>
    intro _ acc hacc kv hkv
    exact hacc kv (by simpa [childrenFold] using hkv)
  | cons c rest ih =>
    intro hc acc hacc kv hkv
    have hstep : childrenFold acc (c :: rest) =
        childrenFold (addChild acc (clean_tag_name c.tag) (element_to_dict c)) rest := by
      simp [childrenFold]
    rw [hstep] at hkv
    exact ih (fun c' h' => hc c' (List.mem_cons_of_mem _ h')) _
      (addChild_ok hacc (hc c (List.mem_cons_self _ _))) kv hkv

theorem dictUpdate_ok {a b : List (String × JSON)}
    (ha : ∀ kv ∈ a, okVal true kv.2 = true)
    (hb : ∀ kv ∈ b, okVal true kv.2 = true) :
    ∀ kv ∈ dictUpdate a b, okVal true kv.2 = true := by
  intro kv hkv
  rcases mem_dictUpdate hkv with h | h
  · exact ha kv h
  · exact hb kv h

/-- Every transformer output satisfies the structural invariant:
proved by strong induction on the size of the element tree. -/
theorem transformer_ok : ∀ (n : Nat) (e : Element), sizeOf e ≤ n →
    okVal false (element_to_dict e) = true := by
  intro n
  induction n using Nat.strong_induction_on with
  | _ n ih =>
    intro e he
    obtain ⟨tg, a, tx, cs⟩ := e
    have hcs : ∀ c ∈ cs, okVal false (element_to_dict c) = true := by
      intro c hc
      have hlt : sizeOf c < sizeOf (Element.mk tg a tx cs) :=
        Element.sizeOf_child_lt hc tg a tx
      exact ih (sizeOf c) (by omega) c le_rfl
    have hch : ∀ kv ∈ childrenFold ([] : List (String × JSON)) cs,
        okVal true kv.2 = true :=
      childrenFold_ok cs hcs [] (by intro kv hkv; simp at hkv)
    simp only [element_to_dict]
    split
    · rfl
    · next hcond =>
      split
      · next hbt =>
        split
        · rfl
        · next hemp =>
          simp only [okVal, Bool.and_eq_true, okEntries_iff]
          constructor
          · simp only [Bool.not_eq_true']
            exact Bool.eq_false_iff.mpr hemp
          · exact dictUpdate_ok
              (by
                intro kv hkv
                simp only [List.mem_singleton] at hkv
                rw [hkv]
                rfl)
              hch
      · next hbt =>
        split
        · rfl
        · next hemp =>
          simp only [okVal, Bool.and_eq_true, okEntries_iff]
          constructor
          · simp only [Bool.not_eq_true']
            exact Bool.eq_false_iff.mpr hemp
          · exact dictUpdate_ok (by intro kv hkv; simp at hkv) hch

/-! ### Exception flow through the extractor -/

theorem stepMessage_exRel (j : JSON) (d : LoanData) :
    exRel (stepMessage j d) = d.relationships := by
  unfold stepMessage
  repeat' split
  all_goals rfl

theorem stepCollaterals_exRel (deal : JSON) (d : LoanData) :
    exRel (stepCollaterals deal d) = d.relationships := by
  unfold stepCollaterals
  repeat' split
  all_goals rfl

theorem stepLoans_exRel (deal : JSON) (d : LoanData) :
    exRel (stepLoans deal d) = d.relationships := by
  unfold stepLoans
  repeat' split
  all_goals rfl

theorem stepParties_exRel (deal : JSON) (d : LoanData) :
    exRel (stepParties deal d) = d.relationships := by
  unfold stepParties
  repeat' split
  all_goals rfl

theorem stepDealTail_exRel (deal : JSON) (d1 : LoanData) :
    exRel (stepDealTail deal d1) = d1.relationships := by
  unfold stepDealTail
  rcases h1 : stepCollaterals deal d1 with d' | d2
  · have e1 := stepCollaterals_exRel deal d1
    rw [h1] at e1
    exact e1
  · have e1 := stepCollaterals_exRel deal d1
    rw [h1] at e1
    show exRel (match stepLoans deal d2 with
      | Except.error d' => Except.error d'
      | Except.ok d3 => stepParties deal d3) = d1.relationships
    rcases h2 : stepLoans deal d2 with d' | d3
    · have e2 := stepLoans_exRel deal d2
      rw [h2] at e2
      exact e2.trans e1
    · have e2 := stepLoans_exRel deal d2
      rw [h2] at e2
      have e3 := stepParties_exRel deal d3
      exact (e3.trans e2).trans e1

theorem stepDeal_exRel (j : JSON) (d : LoanData) :
    exRel (stepDeal j d) = d.relationships := by
  unfold stepDeal
  repeat' split
  all_goals try rfl
  all_goals exact stepDealTail_exRel _ _

theorem stepRel_error_eq {j : JSON} {d r : LoanData}
    (h : stepRel j d = .error r) : r = d := by
  unfold stepRel at h
  repeat' split at h
  all_goals first
    | (injection h with h'; exact h'.symm)
    | exact Except.noConfusion h

theorem stepMessage_error_eq {j : JSON} {d r : LoanData}
    (h : stepMessage j d = .error r) : r = d := by
  unfold stepMessage at h
  repeat' split at h
  all_goals first
    | (injection h with h'; exact h'.symm)
    | exact Except.noConfusion h

/-! ### Splitting lemmas for tag cleaning -/

theorem splitOnChar_not_mem {c : Char} {l : List Char} (h : c ∉ l) :
    splitOnChar c l = [l] := by
  induction l with
  | nil => rfl
  | cons d rest ih =>
    simp only [List.mem_cons, not_or] at h
    have hd : (d == c) = false := by
      rw [beq_eq_false_iff_ne]
      exact fun e => h.1 e.symm
    simp [splitOnChar, hd, ih h.2]

theorem splitOnChar_single_marker (c : Char) :
    ∀ (pre post : List Char), c ∉ pre → c ∉ post →
      splitOnChar c (pre ++ c :: post) = [pre, post] := by
  intro pre
  induction pre with
  | nil =>
    intro post _ hpost
    simp [splitOnChar, splitOnChar_not_mem hpost]
  | cons d pre' ih =>
    intro post hpre hpost
    simp only [List.mem_cons, not_or] at hpre
    have hd : (d == c) = false := by
      rw [beq_eq_false_iff_ne]
      exact fun e => hpre.1 e.symm
    simp only [List.cons_append, splitOnChar, hd, List.append_eq]
    rw [ih post hpre.2 hpost]
    simp

/-! ## The claims -/

/-- C1.  The claim says the transformer inserts an `@attributes` key for
every attribute-bearing element on the mapping branch.  The code contains
no attribute handling at all, contradicting the repository's own test
`test_parse_xml_with_attributes`: the attribute-bearing `person` element
transforms to a mapping holding only the child keys, with no
`@attributes`, and an element with only attributes transforms to `""`
rather than to a mapping with just `@attributes`. -/
theorem c1_attributes_dropped :
    element_to_dict personElem =
      .obj [("name", .str "John Doe"), ("age", .str "30")] ∧
    getKey [("name", JSON.str "John Doe"), ("age", JSON.str "30")]
      "@attributes" = none ∧
    element_to_dict attrOnlyElem = .str "" := by
  refine ⟨?_, rfl, ?_⟩ <;> (rw [element_to_dict_eval]; rfl)

/-- C2 counterexample.  In `c2input` the relationships path is present and
well-shaped — evaluated on its own it fills the field — yet the extractor
returns it empty, because the misshaped ABOUT_VERSIONS value raised inside
the single `try:` block and aborted every later lookup. -/
theorem c2_counterexample :
    stepRel c2input defaultLoanData =
      .ok { defaultLoanData with relationships := [.obj [("x", .str "y")]] } ∧
    (extract_loan_data c2input).relationships = [] :=
  ⟨rfl, rfl⟩

/-- C2 (amended).  An absence — a guard key not present — in the
ABOUT_VERSIONS and DEAL_SETS paths does not prevent the later
relationships lookup from being evaluated and filled in; only a raised
exception (see the counterexample) aborts the remaining paths. -/
theorem c2_absence_independent (j : JSON)
    (h1 : pyIn "ABOUT_VERSIONS" j = false) (h2 : pyIn "DEAL_SETS" j = false) :
    extractBody j defaultLoanData = stepRel j defaultLoanData ∧
    extract_loan_data j =
      (match stepRel j defaultLoanData with
       | .ok d => d
       | .error d => d) := by
  have hm : stepMessage j defaultLoanData = .ok defaultLoanData := by
    unfold stepMessage
    rw [h1]
    simp
  have hd : stepDeal j defaultLoanData = .ok defaultLoanData := by
    unfold stepDeal
    rw [h2]
    simp
  have hB : extractBody j defaultLoanData = stepRel j defaultLoanData := by
    unfold extractBody
    rw [hm]
    show extractBodyTail j defaultLoanData = stepRel j defaultLoanData
    unfold extractBodyTail
    rw [hd]
  refine ⟨hB, ?_⟩
  unfold extract_loan_data
  rw [hB]

/-- Witness for C2 (amended): with only a RELATIONSHIPS mapping present,
the relationships path is still evaluated and fills its field. -/
theorem c2_absence_witness :
    (pyIn "ABOUT_VERSIONS" relOnlyInput = false ∧
      pyIn "DEAL_SETS" relOnlyInput = false) ∧
    (extractBody relOnlyInput defaultLoanData =
        stepRel relOnlyInput defaultLoanData ∧
      extract_loan_data relOnlyInput =
        (match stepRel relOnlyInput defaultLoanData with
         | .ok d => d
         | .error d => d)) :=
  ⟨⟨rfl, rfl⟩, c2_absence_independent relOnlyInput rfl rfl⟩

/-- C6 counterexample.  On a tag with two namespace markers the code keeps
only the segment between the first two markers (`split(...)[1]`), while
the claim's rule — strip everything up to and including the marker — keeps
everything after the first marker. -/
theorem c6_counterexample :
    clean_tag_name "\x7ba\x7db\x7dc" = "b" ∧
    specCleanTag "\x7ba\x7db\x7dc" = "b\x7dc" ∧
    clean_tag_name "\x7ba\x7db\x7dc" ≠ specCleanTag "\x7ba\x7db\x7dc" :=
  ⟨rfl, rfl, by decide⟩

/-- C6 (amended).  A tag without a namespace marker passes through
unchanged, and for a tag containing exactly one namespace marker the
cleaning strips everything up to and including the marker, keeping only
the local name.  (With several markers, only the segment between the
first two is kept.) -/
theorem c6_amended (tag : String) :
    (tag.data.contains nsMarker = false → clean_tag_name tag = tag) ∧
    (∀ pre post, tag.data = pre ++ nsMarker :: post →
      nsMarker ∉ pre → nsMarker ∉ post →
      clean_tag_name tag = (⟨post⟩ : String)) := by
  constructor
  · intro h
    unfold clean_tag_name
    rw [h]
    simp
  · intro pre post hsplit hpre hpost
    have hmem : nsMarker ∈ tag.data := by
      rw [hsplit]
      exact List.mem_append_right _ (List.mem_cons_self _ _)
    have hc : tag.data.contains nsMarker = true := by
      simpa using hmem
    unfold clean_tag_name
    rw [if_pos hc, hsplit, splitOnChar_single_marker nsMarker pre post hpre hpost]

/-- Witness for C6 (amended): a namespaced `LoanAmount` tag cleans to
`LoanAmount`, and a plain tag passes through. -/
theorem c6_amended_witness :
    ("plain".data.contains nsMarker = false ∧
      clean_tag_name "plain" = "plain") ∧
    ("\x7buri\x7dLoanAmount".data =
        "\x7buri".data ++ nsMarker :: "LoanAmount".data ∧
      nsMarker ∉ "\x7buri".data ∧ nsMarker ∉ "LoanAmount".data ∧
      clean_tag_name "\x7buri\x7dLoanAmount" = "LoanAmount") := by
  refine ⟨⟨by decide, (c6_amended "plain").1 (by decide)⟩,
    by decide, by decide, by decide, ?_⟩
  exact (c6_amended "\x7buri\x7dLoanAmount").2 "\x7buri".data "LoanAmount".data
    (by decide) (by decide) (by decide)

/-- C7.  Applied to an empty mapping, the extractor returns exactly the
default Structured Loan Record: empty mappings for message_info and
deal_info, empty sequences for the other four fields. -/
theorem c7_defaults :
    extract_loan_data (.obj []) =
      { message_info := .obj [], deal_info := .obj [], collaterals := [],
        loans := [], parties := [], relationships := [] } := rfl

/-- C3.  End-to-end scenario on the MISMO-shaped document with one DEAL,
one LOAN, one COLLATERAL and one PARTY: the composition of the extractor
after the transformer yields the one-element loans, collaterals and
parties sequences, with singular values wrapped in sequences and the
first party mapping Name to "John Doe". -/
theorem c3_end_to_end :
    (extract_loan_data (element_to_dict mismoDoc)).loans =
      [.obj [("LoanAmount", .str "250000"), ("InterestRate", .str "3.5")]] ∧
    (extract_loan_data (element_to_dict mismoDoc)).collaterals =
      [.obj [("PropertyAddress", .str "123 Main St")]] ∧
    (∃ m rest, (extract_loan_data (element_to_dict mismoDoc)).parties =
        JSON.obj m :: rest ∧ getKey m "Name" = some (.str "John Doe")) := by
  rw [element_to_dict_eval]
  exact ⟨rfl, rfl,
    ⟨[("Name", JSON.str "John Doe"), ("Role", JSON.str "Borrower")], [],
      rfl, rfl⟩⟩

/-- C5.  For an element with no attributes and no children the transformer
returns the trimmed text when it is non-empty and the empty string (not an
empty mapping) when the text is absent or whitespace-only. -/
theorem c5_leaf (e : Element) (ha : e.attrib = []) (hc : e.children = []) :
    (trimText e ≠ "" → element_to_dict e = .str (trimText e)) ∧
    (trimText e = "" → element_to_dict e = .str "") := by
  obtain ⟨tg, a, tx, cs⟩ := e
  simp only [Element.children] at hc
  subst hc
  have htrim : trimText (Element.mk tg a tx []) = pyStrip (tx.getD "") := rfl
  constructor
  · intro hne
    rw [htrim] at hne
    rw [htrim]
    simp only [element_to_dict]
    rw [if_pos ⟨hne, rfl⟩]
  · intro hz
    rw [htrim] at hz
    simp only [element_to_dict]
    rw [if_neg (fun hcond => hcond.1 hz)]
    rw [show childrenFold ([] : List (String × JSON)) ([] : List Element) = []
      from by simp [childrenFold]]
    rw [show (if pyStrip (tx.getD "") ≠ "" then
        [("#text", JSON.str (pyStrip (tx.getD "")))]
      else ([] : List (String × JSON))) = [] from if_neg (fun hh => hh hz)]
    rfl

/-- Witness for C5 at `<text>Some content</text>` and `<empty></empty>`. -/
theorem c5_witness :
    (textElem.attrib = [] ∧ textElem.children = [] ∧
      trimText textElem ≠ "" ∧
      element_to_dict textElem = .str (trimText textElem)) ∧
    (emptyElem.attrib = [] ∧ emptyElem.children = [] ∧
      trimText emptyElem = "" ∧
      element_to_dict emptyElem = .str "") :=
  ⟨⟨rfl, rfl, by decide, (c5_leaf textElem rfl rfl).1 (by decide)⟩,
   ⟨rfl, rfl, rfl, (c5_leaf emptyElem rfl rfl).2 rfl⟩⟩

/-- C4.  When several children share one cleaned tag (contiguously or
not), the transformer returns a mapping whose value at that tag is the
ordered sequence of all their transformed values in document order; the
mechanism is that a first occurrence is stored directly and a second
occurrence replaces the existing non-sequence value by a sequence before
appending (conjuncts two and three). -/
theorem c4_repetition (e : Element) (t : String)
    (h2 : 2 ≤ (tagVals t e.children).length) :
    (∃ m, element_to_dict e = .obj m ∧
      getKey m t = some (.arr (tagVals t e.children))) ∧
    (∀ m v w, getKey m t = some v → (∀ l, v ≠ JSON.arr l) →
      getKey (addChild m t w) t = some (.arr [v, w])) ∧
    (∀ m l w, getKey m t = some (.arr l) →
      getKey (addChild m t w) t = some (.arr (l ++ [w]))) := by
  refine ⟨?_, ?_, ?_⟩
  · obtain ⟨tg, a, tx, cs⟩ := e
    simp only [Element.children] at h2 ⊢
    obtain ⟨v1, v2, vs, hval⟩ : ∃ v1 v2 vs, tagVals t cs = v1 :: v2 :: vs := by
      rcases hv : tagVals t cs with _ | ⟨x, _ | ⟨y, zs⟩⟩
      · rw [hv] at h2; simp at h2
      · rw [hv] at h2; simp at h2
      · exact ⟨x, y, zs, rfl⟩
    have hcsE : cs.isEmpty = false := by
      cases cs with
      | nil =>
        rw [show tagVals t [] = [] from rfl] at hval
        exact List.noConfusion hval
      | cons _ _ => rfl
    have hv1 : ∀ l, v1 ≠ .arr l := by
      have hv1m : v1 ∈ tagVals t cs := by
        rw [hval]; exact List.mem_cons_self _ _
      simp only [tagVals, List.mem_map] at hv1m
      obtain ⟨c, _, hc⟩ := hv1m
      rw [← hc]
      exact element_to_dict_not_arr c
    have hch : getKey (childrenFold [] cs) t = some (.arr (tagVals t cs)) := by
      rw [getKey_childrenFold]
      rw [show getKey ([] : List (String × JSON)) t = none from rfl]
      rw [hval]
      exact repRun_of_two v1 v2 vs hv1
    have hnodup : (keysOf (childrenFold [] cs)).Nodup :=
      childrenFold_keys_nodup cs [] (by simp [keysOf])
    have hupd : getKey (dictUpdate
        (if pyStrip (tx.getD "") ≠ "" then
          [("#text", JSON.str (pyStrip (tx.getD "")))] else [])
        (childrenFold [] cs)) t = some (.arr (tagVals t cs)) := by
      rw [getKey_dictUpdate _ hnodup, hch]
    have hrne : dictUpdate
        (if pyStrip (tx.getD "") ≠ "" then
          [("#text", JSON.str (pyStrip (tx.getD "")))] else [])
        (childrenFold [] cs) ≠ [] := by
      intro h0
      rw [h0] at hupd
      simp [getKey] at hupd
    simp only [element_to_dict]
    rw [if_neg (fun hcond => by rw [hcsE] at hcond; exact Bool.false_ne_true hcond.2)]
    rw [if_neg (fun hh => hrne (List.isEmpty_iff.mp hh))]
    exact ⟨_, rfl, hupd⟩
  · intro m v w hget hnarr
    rw [getKey_addChild_self, hget]
    cases v with
    | str s => rfl
    | obj mm => rfl
    | arr l => exact absurd rfl (hnarr l)
  · intro m l w hget
    rw [getKey_addChild_self, hget]
    rfl

/-- Witness for C4 at the element with three same-tagged `item` children. -/
theorem c4_witness :
    2 ≤ (tagVals "item" repeatElem.children).length ∧
    (∃ m, element_to_dict repeatElem = .obj m ∧
      getKey m "item" = some (.arr (tagVals "item" repeatElem.children))) :=
  ⟨by decide, (c4_repetition repeatElem "item" (by decide)).1⟩

/-- C8.  The extractor never raises: whether the body of the `try:` block
completes or raises, the record accumulated so far is returned, and in the
raising case the relationships field — the last one written — is still at
its default empty sequence. -/
theorem c8_never_raises (j : JSON) :
    (∀ d, extractBody j defaultLoanData = .ok d → extract_loan_data j = d) ∧
    (∀ d, extractBody j defaultLoanData = .error d →
      extract_loan_data j = d ∧ d.relationships = []) := by
  constructor
  · intro d h
    unfold extract_loan_data
    rw [h]
  · intro d h
    refine ⟨by unfold extract_loan_data; rw [h], ?_⟩
    rcases h1 : stepMessage j defaultLoanData with d' | d1
    · have hB : extractBody j defaultLoanData = .error d' := by
        unfold extractBody
        rw [h1]
      rw [hB] at h
      injection h with h'
      rw [← h', stepMessage_error_eq h1]
      rfl
    · have hB : extractBody j defaultLoanData = extractBodyTail j d1 := by
        unfold extractBody
        rw [h1]
      rw [hB] at h
      have e1 := stepMessage_exRel j defaultLoanData
      rw [h1] at e1
      rcases h2 : stepDeal j d1 with d' | d2
      · have hT : extractBodyTail j d1 = .error d' := by
          unfold extractBodyTail
          rw [h2]
        rw [hT] at h
        injection h with h'
        have e2 := stepDeal_exRel j d1
        rw [h2] at e2
        rw [← h']
        exact e2.trans e1
      · have hT : extractBodyTail j d1 = stepRel j d2 := by
          unfold extractBodyTail
          rw [h2]
        rw [hT] at h
        have e2 := stepDeal_exRel j d1
        rw [h2] at e2
        have hd2 := stepRel_error_eq h
        rw [hd2]
        exact e2.trans e1

/-- Witness for C8: a raising input returns the default record with
relationships empty; an empty mapping completes and returns the default. -/
theorem c8_witness :
    (extractBody c2input defaultLoanData = .error defaultLoanData ∧
      (extract_loan_data c2input = defaultLoanData ∧
        defaultLoanData.relationships = [])) ∧
    (extractBody (JSON.obj []) defaultLoanData = .ok defaultLoanData ∧
      extract_loan_data (JSON.obj []) = defaultLoanData) :=
  ⟨⟨rfl, (c8_never_raises c2input).2 defaultLoanData rfl⟩,
   ⟨rfl, (c8_never_raises (JSON.obj [])).1 defaultLoanData rfl⟩⟩

/-- C9.  The transformer is a total function on element trees (it is a
terminating Lean function into `JSON`, with no error outcome): every
result is either the trimmed text as a string — the empty string when the
data is absent or empty — or a non-empty mapping; an element with no text
and no children degrades to the empty string. -/
theorem c9_total (e : Element) :
    (element_to_dict e = .str (trimText e) ∨
      ∃ m, m ≠ [] ∧ element_to_dict e = .obj m) ∧
    (e.text = none → e.children = [] → element_to_dict e = .str "") := by
  refine ⟨element_to_dict_shape e, ?_⟩
  intro ht hc
  obtain ⟨tg, a, tx, cs⟩ := e
  simp only [Element.text] at ht
  simp only [Element.children] at hc
  subst ht
  subst hc
  simp only [element_to_dict]
  rw [if_neg (fun hcond => hcond.1 rfl)]
  rw [show childrenFold ([] : List (String × JSON)) ([] : List Element) = []
    from by simp [childrenFold]]
  rw [show (if pyStrip ((none : Option String).getD "") ≠ "" then
      [("#text", JSON.str (pyStrip ((none : Option String).getD "")))]
    else ([] : List (String × JSON))) = [] from if_neg (fun hh => hh rfl)]
  rfl

/-- Witness for C9 at the empty element. -/
theorem c9_witness :
    (emptyElem.text = none ∧ emptyElem.children = []) ∧
    element_to_dict emptyElem = .str "" :=
  ⟨⟨rfl, rfl⟩, (c9_total emptyElem).2 rfl rfl⟩

/-- C10.  Structural invariant of every transformer result: the top level
is a string or a mapping (never a sequence), every mapping anywhere inside
is non-empty, and sequences occur only directly as values of mapping
keys. -/
theorem c10_invariant (e : Element) :
    okVal false (element_to_dict e) = true :=
  transformer_ok (sizeOf e) e le_rfl
